import Mathlib

/-!
Verification of the markgrab documentation scraper.

The TypeScript sources are embedded shallowly: pure string manipulation is
translated to Lean functions over `String`/`List Char`; asynchronous code is
modelled by making the outcome of each external effect (network fetch,
thrown exception) an explicit input; the mutable progress tracker becomes a
state-transition function.  JavaScript regular expressions are translated to
equivalent character-list scans, documented at each definition.
-/

namespace Markgrab

/-! ## Basic character classes (ASCII model of the JS regex classes) -/

/-- ASCII digit, the `0-9` class of the JS regexes. -/
def isAsciiDigit (c : Char) : Bool := 48 ≤ c.toNat && c.toNat ≤ 57

/-- ASCII uppercase letter. -/
def isAsciiUpper (c : Char) : Bool := 65 ≤ c.toNat && c.toNat ≤ 90

/-- ASCII lowercase letter. -/
def isAsciiLower (c : Char) : Bool := 97 ≤ c.toNat && c.toNat ≤ 122

/-- The `a-z` class with the `i` flag: any ASCII letter. -/
def isAsciiLetter (c : Char) : Bool := isAsciiUpper c || isAsciiLower c

/-- The `[a-z0-9]` class with the `i` flag. -/
def isAsciiAlnum (c : Char) : Bool := isAsciiLetter c || isAsciiDigit c

/-- The JS `\s` class (whitespace as matched by JS regexes and `String.trim`):
tab, LF, VT, FF, CR, space, NBSP, Ogham space, the U+2000 block,
line/paragraph separators, narrow NBSP, math space, ideographic space, BOM. -/
def jsWhitespace (c : Char) : Bool :=
  let n := c.toNat
  n = 9 || n = 10 || n = 11 || n = 12 || n = 13 || n = 32 ||
  n = 160 || n = 5760 || (8192 ≤ n && n ≤ 8202) || n = 8232 ||
  n = 8233 || n = 8239 || n = 8287 || n = 12288 || n = 65279

/-- ASCII model of `String.prototype.toLowerCase` (all characters reaching a
lowercasing step in the sources are ASCII). -/
def toLowerAscii (c : Char) : Char :=
  if isAsciiUpper c then Char.ofNat (c.toNat + 32) else c

/-- Lowercase a string character-wise (model of `s.toLowerCase()`). -/
def lowerS (s : String) : String := String.mk (s.toList.map toLowerAscii)

/-- JS `String.prototype.trim`: strip `jsWhitespace` from both ends. -/
def trimChars (cs : List Char) : List Char :=
  ((cs.dropWhile jsWhitespace).reverse.dropWhile jsWhitespace).reverse

/-- String wrapper for `trimChars` (model of `s.trim()`). -/
def trimS (s : String) : String := String.mk (trimChars s.toList)

/-- Model of `s.startsWith(p)`. -/
def startsWithS (s p : String) : Bool := p.toList.isPrefixOf s.toList

/-- Model of `s.endsWith(p)`. -/
def endsWithS (s p : String) : Bool := p.toList.isSuffixOf s.toList

/-- Model of `s.slice(n)` for a nonnegative index. -/
def dropS (s : String) (n : Nat) : String := String.mk (s.toList.drop n)

/-- Split a character list at each occurrence of the separator character,
keeping empty fields (model of `s.split(sep)` for a single character). -/
def splitChars (sep : Char) : List Char → List (List Char)
  | [] => [[]]
  | c :: cs =>
    if c = sep then
      [] :: splitChars sep cs
    else
      match splitChars sep cs with
      | [] => [[c]]
      | f :: fs => (c :: f) :: fs

/-- String wrapper for `splitChars`. -/
def splitS (s : String) (sep : Char) : List String :=
  (splitChars sep s.toList).map String.mk

/-- Substring test on character lists (model of `s.includes(t)`). -/
def containsSub (hay needle : List Char) : Bool :=
  match hay with
  | [] => needle.isEmpty
  | _ :: t => needle.isPrefixOf hay || containsSub t needle

/-! ## `sanitizeFilename` (scraper.ts, lines 56–62)

```ts
return text
  .replace(/>/g, '')
  .replace(/[^a-z0-9\s.-]/gi, '')
  .replace(/[\s.-]+/g, '_')
  .toLowerCase();
```
-/

/-- The `[\s.-]` class: separator characters that collapse to `_`. -/
def isSepChar (c : Char) : Bool := jsWhitespace c || c = '.' || c = '-'

/-- The `[a-z0-9\s.-]` class with the `i` flag: characters kept by the second
`replace` (everything else is deleted). -/
def keepChar (c : Char) : Bool := isAsciiAlnum c || isSepChar c

/-- Replace every maximal run of `isSepChar` characters by a single `_`
(model of `.replace(/[\s.-]+/g, '_')`).  The boolean records whether the
previous character was part of a separator run. -/
def collapseSeps : Bool → List Char → List Char
  | _, [] => []
  | prevSep, c :: cs =>
    if isSepChar c then
      if prevSep then collapseSeps true cs
      else '_' :: collapseSeps true cs
    else
      c :: collapseSeps false cs

/-- scraper.ts `sanitizeFilename`. -/
def sanitizeFilename (text : String) : String :=
  let s1 := text.toList.filter (fun c => !(c = '>'))
  let s2 := s1.filter keepChar
  let s3 := collapseSeps false s2
  String.mk (s3.map toLowerAscii)

/-! ## `generateMarkdownUrls` (scraper.ts, lines 115–156) -/

/-- Model of `pathname.endsWith('/') ? pathname.slice(0, -1) : pathname`. -/
def stripTrailingSlash (p : String) : String :=
  if endsWithS p "/" then String.mk p.toList.dropLast else p

/-- Model of the anchored match `pathname.match(/^(.+)\.([a-z0-9]+)$/i)`:
the string splits at its last `.` into a nonempty stem and a nonempty
all-alphanumeric extension (greedy `(.+)` forces the last dot, and the
`[a-z0-9]+$` tail forbids any later dot). -/
def extSplit (s : String) : Option (String × String) :=
  let rev := s.toList.reverse
  let extRev := rev.takeWhile isAsciiAlnum
  let rest := rev.dropWhile isAsciiAlnum
  match rest with
  | '.' :: stemRev =>
    if extRev.isEmpty || stemRev.isEmpty then none
    else some (String.mk stemRev.reverse, String.mk extRev.reverse)
  | _ => none

/-- scraper.ts `generateMarkdownUrls`, over the parsed pieces of the page URL:
`origin` and `pathname` as produced by `new URL(url)`, and
`hasTrailingSlash = url.endsWith('/')`. -/
def generateMarkdownUrls (origin pathname : String) (hasTrailingSlash : Bool) :
    List String :=
  let pathnameWithoutSlash := stripTrailingSlash pathname
  match extSplit pathnameWithoutSlash with
  | some (pathWithoutExt, _ext) =>
    [origin ++ pathWithoutExt ++ ".md",
     origin ++ pathnameWithoutSlash ++ ".md"]
  | none =>
    (if hasTrailingSlash then [origin ++ pathname ++ "index.md"] else []) ++
    [origin ++ pathnameWithoutSlash ++ ".md"] ++
    (if !hasTrailingSlash then [origin ++ pathnameWithoutSlash ++ "/index.md"] else [])

/-! ## llms.txt data model (llms-txt.ts, lines 82–105) -/

/-- A single link entry of an llms.txt manifest. -/
structure LlmsTxtLink where
  title : String
  url : String
  notes : Option String
deriving Repr, DecidableEq

/-- One `## ` section of an llms.txt manifest. -/
structure LlmsTxtSection where
  title : String
  isOptional : Bool
  links : List LlmsTxtLink
deriving Repr, DecidableEq

/-- The parsed llms.txt document. -/
structure LlmsTxtContent where
  title : String
  description : Option String
  details : Option String
  sections : List LlmsTxtSection
deriving Repr, DecidableEq

/-! ## `parseLink` (llms-txt.ts, lines 246–261)

The regex `/\[([^\]]+)\]\(([^)]+)\)(?::\s*(.*))?/` is unanchored: the engine
tries successive start positions left to right, and at each position the
match is deterministic (the greedy `[^\]]+`/`[^)]+` classes cannot
backtrack over their closing bracket).  `(.*)` stops at a line terminator. -/

/-- JS line terminators (`\n`, `\r`, U+2028, U+2029), which `.` cannot match. -/
def isLineTerm (c : Char) : Bool :=
  c.toNat = 10 || c.toNat = 13 || c.toNat = 8232 || c.toNat = 8233

/-- Attempt the link regex at the start of `cs`. -/
def linkMatchAt (cs : List Char) : Option LlmsTxtLink :=
  match cs with
  | '[' :: rest =>
    let titleCs := rest.takeWhile (fun c => !(c = ']'))
    if titleCs.isEmpty then none
    else
      match rest.dropWhile (fun c => !(c = ']')) with
      | ']' :: '(' :: rest2 =>
        let urlCs := rest2.takeWhile (fun c => !(c = ')'))
        if urlCs.isEmpty then none
        else
          match rest2.dropWhile (fun c => !(c = ')')) with
          | ')' :: rest3 =>
            let notes : Option String :=
              match rest3 with
              | ':' :: rest4 =>
                some (trimS (String.mk
                  ((rest4.dropWhile jsWhitespace).takeWhile (fun c => !isLineTerm c))))
              | _ => none
            some ⟨trimS (String.mk titleCs), trimS (String.mk urlCs), notes⟩
          | _ => none
      | _ => none
  | _ => none

/-- Leftmost-match scan for the link regex. -/
def linkScan : List Char → Option LlmsTxtLink
  | [] => none
  | c :: cs =>
    match linkMatchAt (c :: cs) with
    | some l => some l
    | none => linkScan cs

/-- llms-txt.ts `parseLink` (title and url are trimmed; a capture that trims
to the empty string falls back to `''` in the source, which coincides with
the trim itself). -/
def parseLink (text : String) : Option LlmsTxtLink := linkScan text.toList

/-! ## `parseLlmsTxt` (llms-txt.ts, lines 144–239) -/

/-- The mutable locals of the `parseLlmsTxt` loop. -/
structure ParseState where
  title : String
  description : Option String
  details : Option String
  sections : List LlmsTxtSection
  currentSection : Option LlmsTxtSection
  detailsLines : List String
  inDetails : Bool
deriving Repr, DecidableEq

/-- Initial loop state. -/
def initParseState : ParseState := ⟨"", none, none, [], none, [], false⟩

/-- Model of `lines.join('\n')`. -/
def joinNl : List String → String
  | [] => ""
  | [s] => s
  | s :: rest => s ++ "\n" ++ joinNl rest

/-- Branch taken by one iteration of the `parseLlmsTxt` loop for a given
line, in the source's test order: `if (!line) continue` (empty line), blank
after trim, `# ` title, `>` blockquote, `## ` section heading, `-`/`*` list
item, anything else. -/
inductive LineKind
  | empty
  | blank
  | h1
  | quote
  | h2
  | listItem
  | other
deriving Repr, DecidableEq

/-- Classify a line exactly as the source's if-chain does. -/
def classifyLine (line : String) : LineKind :=
  if line = "" then .empty
  else
    let trimmed := trimS line
    if trimmed = "" then .blank
    else if startsWithS trimmed "# " then .h1
    else if startsWithS trimmed ">" then .quote
    else if startsWithS trimmed "## " then .h2
    else if startsWithS trimmed "-" || startsWithS trimmed "*" then .listItem
    else .other

/-- One iteration of the `parseLlmsTxt` loop. -/
def processLine (st : ParseState) (line : String) : ParseState :=
  match classifyLine line with
  | .empty => st
  | .blank =>
    if st.inDetails then { st with detailsLines := st.detailsLines ++ [""] } else st
  | .h1 =>
    { st with title := trimS (dropS (trimS line) 2), inDetails := false }
  | .quote =>
    { st with description := some (trimS (dropS (trimS line) 1)), inDetails := true }
  | .h2 =>
    let st1 :=
      if st.inDetails && decide (0 < st.detailsLines.length) then
        { st with details := some (trimS (joinNl st.detailsLines)), inDetails := false }
      else st
    let st2 :=
      match st1.currentSection with
      | some sec => { st1 with sections := st1.sections ++ [sec] }
      | none => st1
    let sectionTitle := trimS (dropS (trimS line) 3)
    { st2 with
      currentSection := some ⟨sectionTitle, lowerS sectionTitle = "optional", []⟩ }
  | .listItem =>
    match st.currentSection with
    | some sec =>
      match parseLink (trimS (dropS (trimS line) 1)) with
      | some link =>
        { st with currentSection := some { sec with links := sec.links ++ [link] } }
      | none => st
    | none => st
  | .other =>
    if st.inDetails then { st with detailsLines := st.detailsLines ++ [line] } else st

/-- The epilogue after the loop: push the last open section and flush the
details buffer. -/
def finalizeParse (st : ParseState) : LlmsTxtContent :=
  let st1 :=
    match st.currentSection with
    | some sec => { st with sections := st.sections ++ [sec] }
    | none => st
  let details :=
    if st1.inDetails && decide (0 < st1.detailsLines.length) then
      some (trimS (joinNl st1.detailsLines))
    else st1.details
  ⟨st1.title, st1.description, details, st1.sections⟩

/-- llms-txt.ts `parseLlmsTxt`. -/
def parseLlmsTxt (content : String) : LlmsTxtContent :=
  finalizeParse ((splitS content '\n').foldl processLine initParseState)

/-! ## `llmsTxtToPageLinks` (llms-txt.ts, lines 270–310) -/

/-- Host/path/href of a resolved URL, the pieces of the WHATWG `URL` object
this code reads.  URL parsing itself is a platform primitive; the theorems
quantify over an arbitrary resolver `String → Option URLParts` where `none`
models the constructor throwing. -/
structure URLParts where
  hostname : String
  pathname : String
  href : String
deriving Repr, DecidableEq

/-- scraper.ts `PageLink` (the manifest path always sets `isFullContent`). -/
structure PageLink where
  url : String
  title : String
  isFullContent : Bool
deriving Repr, DecidableEq

/-- The body of the inner loop of `llmsTxtToPageLinks`: resolve one manifest
link (a `none` resolver result is the catch branch), drop cross-origin
links, mark `.txt` paths as full content. -/
def resolveLink (resolve : String → Option URLParts) (baseHostname : String)
    (link : LlmsTxtLink) : Option PageLink :=
  match resolve link.url with
  | none => none
  | some u =>
    if u.hostname = baseHostname then
      some ⟨u.href, link.title, endsWithS u.pathname ".txt"⟩
    else none

/-- Inner loop of `llmsTxtToPageLinks` (push onto the accumulating `links`
array). -/
def pageLinksFromLinks (resolve : String → Option URLParts) (baseHostname : String)
    (acc : List PageLink) : List LlmsTxtLink → List PageLink
  | [] => acc
  | link :: rest =>
    match resolve link.url with
    | none => pageLinksFromLinks resolve baseHostname acc rest
    | some u =>
      if u.hostname = baseHostname then
        pageLinksFromLinks resolve baseHostname
          (acc ++ [⟨u.href, link.title, endsWithS u.pathname ".txt"⟩]) rest
      else
        pageLinksFromLinks resolve baseHostname acc rest

/-- Outer loop of `llmsTxtToPageLinks` (skip an Optional section unless
`includeOptional`). -/
def pageLinksFromSections (resolve : String → Option URLParts) (baseHostname : String)
    (includeOptional : Bool) (acc : List PageLink) :
    List LlmsTxtSection → List PageLink
  | [] => acc
  | s :: rest =>
    if s.isOptional && !includeOptional then
      pageLinksFromSections resolve baseHostname includeOptional acc rest
    else
      pageLinksFromSections resolve baseHostname includeOptional
        (pageLinksFromLinks resolve baseHostname acc s.links) rest

/-- llms-txt.ts `llmsTxtToPageLinks`, with `baseHostname` standing for
`new URL(baseUrl).hostname` and `resolve` for `u => new URL(u, baseUrl)`. -/
def llmsTxtToPageLinks (resolve : String → Option URLParts) (llmsTxt : LlmsTxtContent)
    (baseHostname : String) (includeOptional : Bool) : List PageLink :=
  pageLinksFromSections resolve baseHostname includeOptional [] llmsTxt.sections

/-- Declarative restatement of §4.2 `fromManifest`: the links of the
non-skipped sections, resolved, cross-origin and unparsable ones dropped,
`.txt` paths marked as full content. -/
def llmsTxtToPageLinksSpec (resolve : String → Option URLParts) (llmsTxt : LlmsTxtContent)
    (baseHostname : String) (includeOptional : Bool) : List PageLink :=
  (llmsTxt.sections.filter (fun s => !(s.isOptional && !includeOptional))).flatMap
    (fun s => s.links.filterMap (resolveLink resolve baseHostname))

/-! ## `withRetry` (retry.ts, lines 169–211)

The asynchronous operation is modelled as `fn : Nat → Except String α`
giving the outcome of each attempt (errors carry their message); `sleep`
becomes a recorded delay.  The trace returns the final outcome, the number
of attempts performed, and the list of inter-attempt delays. -/

/-- Result of a `withRetry` run. -/
structure RetryTrace (α : Type) where
  result : Except String α
  attempts : Nat
  delays : List Nat
deriving Repr

/-- The retryable-signature test: the lowercased message contains some
lowercased signature (`errorMessage.includes(retryable.toLowerCase())`). -/
def isRetryableError (sigs : List String) (msg : String) : Bool :=
  sigs.any (fun r => containsSub (lowerS msg).toList (lowerS r).toList)

/-- Whether a failure leads to another attempt: with no signature list every
failure retries, otherwise `isRetryableError` decides. -/
def shouldRetryB (sigs : Option (List String)) (msg : String) : Bool :=
  match sigs with
  | none => true
  | some l => isRetryableError l msg

/-- The `for (attempt = 0; attempt <= maxRetries; attempt++)` loop with
`fuel = maxRetries - attempt` remaining iterations after this one:
`fuel = 0` is the final attempt (`attempt === maxRetries` breaks before the
retryability test). -/
def withRetryGo (fn : Nat → Except String α) (baseDelay : Nat)
    (sigs : Option (List String)) : Nat → Nat → RetryTrace α
  | attempt, fuel =>
    match fn attempt with
    | .ok v => ⟨.ok v, 1, []⟩
    | .error e =>
      match fuel with
      | 0 => ⟨.error e, 1, []⟩
      | fuel' + 1 =>
        if shouldRetryB sigs e then
          let t := withRetryGo fn baseDelay sigs (attempt + 1) fuel'
          ⟨t.result, t.attempts + 1, baseDelay * 2 ^ attempt :: t.delays⟩
        else ⟨.error e, 1, []⟩

/-- retry.ts `withRetry`. -/
def withRetry (fn : Nat → Except String α) (maxRetries : Nat) (baseDelay : Nat)
    (sigs : Option (List String)) : RetryTrace α :=
  withRetryGo fn baseDelay sigs 0 maxRetries

/-- retry.ts `RETRYABLE_HTTP_ERRORS`. -/
def RETRYABLE_HTTP_ERRORS : List String :=
  ["timeout", "ETIMEDOUT", "ECONNRESET", "ECONNREFUSED", "ENOTFOUND",
   "HTTP 429", "HTTP 500", "HTTP 502", "HTTP 503", "HTTP 504"]

/-! ## `ProgressTracker` (progress.ts, lines 16–151)

The tracker's mutable `stats` record becomes a state threaded through the
transition methods; the throttled terminal redraw has no effect on the
stats and is omitted.  `inProgress` is an `Int` because JS numbers admit
the decrement below zero on an unmatched terminal call. -/

/-- progress.ts `ProgressStats`. -/
structure ProgressStats where
  total : Nat
  completed : Nat
  success : Nat
  failed : Nat
  skipped : Nat
  inProgress : Int
  errors : List (String × String)
deriving Repr, DecidableEq

/-- The constructor's initial stats. -/
def initStats (total : Nat) : ProgressStats := ⟨total, 0, 0, 0, 0, 0, []⟩

/-- One call to a transition method of the tracker. -/
inductive TrackerEvent
  | start
  | success
  | fail (url error : String)
  | skip
deriving Repr, DecidableEq

/-- The counter updates of `start`/`success`/`fail`/`skip`. -/
def stepStats (st : ProgressStats) : TrackerEvent → ProgressStats
  | .start => { st with inProgress := st.inProgress + 1 }
  | .success =>
    { st with inProgress := st.inProgress - 1, completed := st.completed + 1,
              success := st.success + 1 }
  | .fail u e =>
    { st with inProgress := st.inProgress - 1, completed := st.completed + 1,
              failed := st.failed + 1, errors := st.errors ++ [(u, e)] }
  | .skip =>
    { st with inProgress := st.inProgress - 1, completed := st.completed + 1,
              skipped := st.skipped + 1 }

/-- Apply a sequence of transition calls. -/
def runTrace (st : ProgressStats) (tr : List TrackerEvent) : ProgressStats :=
  tr.foldl stepStats st

/-- Is the event a `start()` call. -/
def isStartEv : TrackerEvent → Bool
  | .start => true
  | _ => false

/-- Is the event a terminal transition (`success`/`fail`/`skip`). -/
def isTerminalEv : TrackerEvent → Bool
  | .start => false
  | _ => true

/-- Is the event a `success()` call. -/
def isSuccessEv : TrackerEvent → Bool
  | .success => true
  | _ => false

/-- Is the event a `fail()` call. -/
def isFailEv : TrackerEvent → Bool
  | .fail _ _ => true
  | _ => false

/-- Is the event a `skip()` call. -/
def isSkipEv : TrackerEvent → Bool
  | .skip => true
  | _ => false

/-- The error entry pushed by a `fail` event. -/
def errOfEv : TrackerEvent → Option (String × String)
  | .fail u e => some (u, e)
  | _ => none

/-! ## `scrapePage` as tracker transitions (scraper.ts, lines 170–285)

`scrapePage` wraps its whole body in `try { progress?.start(); …;
progress?.success(); } catch { progress?.fail(url, msg); }`, and each early
`return` is preceded by exactly one `progress?.fail` call.  The outcome of
the page's resolution (network, selector match, thrown error) is an
explicit input; the function below lists the tracker calls the source makes
on each path. -/

/-- How one page's resolution ends: saved successfully; a non-ok HTTP
response (full-content or HTML fetch, lines 201–208 and 239–246); the
content selector matching nothing (lines 253–260); any thrown error caught
at line 278. -/
inductive PageOutcome
  | ok
  | httpError (msg : String)
  | selectorMissing (msg : String)
  | thrown (msg : String)
deriving Repr, DecidableEq

/-- The tracker transitions `scrapePage` performs for a page: always
`start()` first, then exactly one terminal transition. -/
def pageEvents (url : String) : PageOutcome → List TrackerEvent
  | .ok => [.start, .success]
  | .httpError m => [.start, .fail url m]
  | .selectorMissing m => [.start, .fail url m]
  | .thrown m => [.start, .fail url m]

/-- Did the page succeed. -/
def pageOk (p : String × PageOutcome) : Bool :=
  match p.2 with
  | .ok => true
  | _ => false

/-- The error entry a failing page contributes. -/
def pageError? (p : String × PageOutcome) : Option (String × String) :=
  match p.2 with
  | .ok => none
  | .httpError m => some (p.1, m)
  | .selectorMissing m => some (p.1, m)
  | .thrown m => some (p.1, m)

/-- All transitions of a batch, in submission order (`Promise.all` over the
`pLimit`-wrapped `scrapePage` calls). -/
def batchEvents (pages : List (String × PageOutcome)) : List TrackerEvent :=
  (pages.map (fun p => pageEvents p.1 p.2)).flatten

/-! ## The orchestrator's strategy selection (scraper.ts `scrape`, lines 333–521)

The decision structure of `scrape`, with every external effect an explicit
input: `fetched` is the `fetchLlmsTxt` result, `extracted` the
`extractLinks` result, `pathname` the parsed path of `baseUrl`.  The
returned value names which terminal branch the run takes. -/

/-- Terminal branch of one `scrape` run. -/
inductive ScrapeOutcome
  | llmsBatch (links : List PageLink)
  | llmsPreview (links : List PageLink)
  | followBatch (links : List PageLink)
  | followPreview (links : List PageLink)
  | selectorError (selector : String)
  | singlePage (title : String)
  | singlePreview (title : String)
deriving Repr, DecidableEq

/-- `urlPath.split('/').filter(Boolean).pop() || 'index'`. -/
def lastPathSegmentTitle (pathname : String) : String :=
  ((((splitS pathname '/').filter (fun s => !(s = ""))).getLast?).getD "index")

/-- Strategy selection of scraper.ts `scrape`. -/
def scrapeDecision (useLlmsTxt : Bool) (fetched : Option LlmsTxtContent)
    (resolve : String → Option URLParts) (baseHostname : String)
    (includeOptional : Bool) (followLinksSelector : String)
    (extracted : List PageLink) (dryRun : Bool) (pathname : String) :
    ScrapeOutcome :=
  let fromLlms : Option (List PageLink) :=
    if useLlmsTxt then
      match fetched with
      | some llmsTxt =>
        let links := llmsTxtToPageLinks resolve llmsTxt baseHostname includeOptional
        if 0 < links.length then some links else none
      | none => none
    else none
  match fromLlms with
  | some links => if dryRun then .llmsPreview links else .llmsBatch links
  | none =>
    if !(followLinksSelector = "") && !(trimS followLinksSelector = "") then
      if extracted.length = 0 then .selectorError followLinksSelector
      else if dryRun then .followPreview extracted
      else .followBatch extracted
    else
      let title := lastPathSegmentTitle pathname
      if dryRun then .singlePreview title else .singlePage title

/-! ## Declarative description of the parser's section structure (§4.1/§8)

These definitions restate the spec's reading of `parseLlmsTxt` — sections
in document order, links in document order, malformed list lines dropped,
pre-heading list lines dropped, empty sections retained — to be compared
with the loop above. -/

/-- Does the line open a new section (the parser's `## ` branch). -/
def isSectionHeading (line : String) : Bool :=
  match classifyLine line with
  | .h2 => true
  | _ => false

/-- The link a line contributes to the enclosing section, if any: a list
line whose text parses as `[title](url)`. -/
def lineLink (line : String) : Option LlmsTxtLink :=
  match classifyLine line with
  | .listItem => parseLink (trimS (dropS (trimS line) 1))
  | _ => none

/-- The section a heading line opens, before any links are attached. -/
def headingSection (line : String) : LlmsTxtSection :=
  let t := trimS (dropS (trimS line) 3)
  ⟨t, lowerS t = "optional", []⟩

/-- Spec-side section list: lines before the first heading contribute
nothing; each heading opens a section holding the parsed links of the list
lines before the next heading. -/
def sectionsSpec (lines : List String) : List LlmsTxtSection :=
  match lines with
  | [] => []
  | l :: ls =>
    if isSectionHeading l then
      { headingSection l with
        links := (ls.takeWhile (fun x => !isSectionHeading x)).filterMap lineLink } ::
      sectionsSpec (ls.dropWhile (fun x => !isSectionHeading x))
    else sectionsSpec ls
termination_by lines.length
decreasing_by
  · exact Nat.lt_succ_of_le (List.dropWhile_sublist _).length_le
  · exact Nat.lt_succ_self _

/-- Sections still to be produced from the remaining lines, given the
currently open section: the auxiliary invariant of the loop/spec
correspondence. -/
def pendingSections (cur : Option LlmsTxtSection) (lines : List String) :
    List LlmsTxtSection :=
  match cur with
  | none => sectionsSpec lines
  | some sec =>
    { sec with
      links := sec.links ++
        (lines.takeWhile (fun x => !isSectionHeading x)).filterMap lineLink } ::
    sectionsSpec (lines.dropWhile (fun x => !isSectionHeading x))

/-- The title a `# ` line sets, if any. -/
def h1Text (line : String) : Option String :=
  match classifyLine line with
  | .h1 => some (trimS (dropS (trimS line) 2))
  | _ => none

/-- A character admissible in a sanitized filename: a lowercase ASCII
letter, an ASCII digit, or an underscore — and in particular not a path
separator, a dot, or a space. -/
def goodFilenameChar (c : Char) : Bool :=
  (isAsciiLower c || isAsciiDigit c || c = '_') &&
  !(c = '/') && !(c = '\\') && !(c = '.') && !(c = ' ')

/-- The §8 batch-isolation scenario: five pages, the third of which always
fails its fetch. -/
def pages5 : List (String × PageOutcome) :=
  [("https://x.test/p1", .ok), ("https://x.test/p2", .ok),
   ("https://x.test/p3", .httpError "HTTP 500: Internal Server Error"),
   ("https://x.test/p4", .ok), ("https://x.test/p5", .ok)]

/-! # Lemmas -/

/-- `Char.ofNat` round-trips through `toNat` below the surrogate range. -/
theorem charOfNat_toNat {n : Nat} (h : n < 55296) : (Char.ofNat n).toNat = n := by
  simp [Char.ofNat, Char.toNat, Nat.isValidChar, h, Char.ofNatAux, UInt32.toNat,
    BitVec.toNat_ofNatLt]

/-- Characters of `collapseSeps` output: an inserted `_` or a non-separator
character of the input. -/
theorem mem_collapseSeps : ∀ (b : Bool) (l : List Char) (c : Char),
    c ∈ collapseSeps b l → c = '_' ∨ (c ∈ l ∧ isSepChar c = false) := by
  intro b l
  induction l generalizing b with
  | nil => intro c h; simp [collapseSeps] at h
  | cons d t ih =>
    intro c h
    cases hd : isSepChar d with
    | true =>
      cases b with
      | true =>
        simp only [collapseSeps, hd, if_true] at h
        rcases ih true c h with h' | ⟨hm, hs⟩
        · exact Or.inl h'
        · exact Or.inr ⟨List.mem_cons_of_mem _ hm, hs⟩
      | false =>
        simp only [collapseSeps, hd, if_true] at h
        rcases List.mem_cons.mp h with h' | h'
        · exact Or.inl h'
        · rcases ih true c h' with h'' | ⟨hm, hs⟩
          · exact Or.inl h''
          · exact Or.inr ⟨List.mem_cons_of_mem _ hm, hs⟩
    | false =>
      simp only [collapseSeps, hd, Bool.false_eq_true, if_false] at h
      rcases List.mem_cons.mp h with h' | h'
      · subst h'; exact Or.inr ⟨List.mem_cons_self _ _, hd⟩
      · rcases ih false c h' with h'' | ⟨hm, hs⟩
        · exact Or.inl h''
        · exact Or.inr ⟨List.mem_cons_of_mem _ hm, hs⟩

/-- Lowercasing an ASCII alphanumeric character lands in `a-z` or `0-9`. -/
theorem toLowerAscii_bounds {c : Char} (h : isAsciiAlnum c = true) :
    (97 ≤ (toLowerAscii c).toNat ∧ (toLowerAscii c).toNat ≤ 122) ∨
    (48 ≤ (toLowerAscii c).toNat ∧ (toLowerAscii c).toNat ≤ 57) := by
  simp only [isAsciiAlnum, isAsciiLetter, isAsciiUpper, isAsciiLower, isAsciiDigit,
    Bool.or_eq_true, Bool.and_eq_true, decide_eq_true_eq] at h
  unfold toLowerAscii isAsciiUpper
  cases hu : (decide (65 ≤ c.toNat) && decide (c.toNat ≤ 90)) with
  | true =>
    simp only [hu, if_true]
    simp only [Bool.and_eq_true, decide_eq_true_eq] at hu
    rw [charOfNat_toNat (by omega)]
    omega
  | false =>
    simp only [hu, Bool.false_eq_true, if_false]
    simp only [Bool.and_eq_true, decide_eq_true_eq, Bool.and_eq_false_iff,
      decide_eq_false_iff_not] at hu h
    omega

/-- Bounds imply membership in the sanitized-filename alphabet. -/
theorem good_of_bounds {e : Char}
    (h : (97 ≤ e.toNat ∧ e.toNat ≤ 122) ∨ (48 ≤ e.toNat ∧ e.toNat ≤ 57) ∨ e = '_') :
    goodFilenameChar e = true := by
  have h1 : ¬(e = '/') := by rintro rfl; revert h; decide
  have h2 : ¬(e = '\\') := by rintro rfl; revert h; decide
  have h3 : ¬(e = '.') := by rintro rfl; revert h; decide
  have h4 : ¬(e = ' ') := by rintro rfl; revert h; decide
  unfold goodFilenameChar isAsciiLower isAsciiDigit
  rcases h with ⟨ha, hb⟩ | ⟨ha, hb⟩ | hu
  · simp [ha, hb, h1, h2, h3, h4]
  · simp [ha, hb, h1, h2, h3, h4]
  · simp [hu, h1, h2, h3, h4]

/-- Reindexing the exponential-backoff delay list when the loop advances by
one attempt. -/
theorem range_delay_cons (bd a n : Nat) :
    bd * 2 ^ a :: (List.range n).map (fun i => bd * 2 ^ (a + 1 + i)) =
    (List.range (n + 1)).map (fun i => bd * 2 ^ (a + i)) := by
  rw [List.range_succ_eq_map, List.map_cons, List.map_map, List.cons.injEq]
  refine ⟨by norm_num, ?_⟩
  apply List.map_congr_left
  intro i _
  show bd * 2 ^ (a + 1 + i) = ((fun i => bd * 2 ^ (a + i)) ∘ Nat.succ) i
  simp only [Function.comp_apply]
  rw [show a + 1 + i = a + (i + 1) from by omega]

/-- One-step unfolding of the retry loop. -/
theorem withRetryGo_eq {α : Type} (fn : Nat → Except String α) (bd : Nat)
    (sigs : Option (List String)) (attempt fuel : Nat) :
    withRetryGo fn bd sigs attempt fuel =
      match fn attempt with
      | .ok v => ⟨.ok v, 1, []⟩
      | .error e =>
        match fuel with
        | 0 => ⟨.error e, 1, []⟩
        | fuel' + 1 =>
          if shouldRetryB sigs e then
            let t := withRetryGo fn bd sigs (attempt + 1) fuel'
            ⟨t.result, t.attempts + 1, bd * 2 ^ attempt :: t.delays⟩
          else ⟨.error e, 1, []⟩ := by
  rw [withRetryGo]

/-- The retry loop performs at most `fuel + 1` attempts. -/
theorem withRetryGo_attempts_le {α : Type} (fn : Nat → Except String α)
    (bd : Nat) (sigs : Option (List String)) :
    ∀ (fuel attempt : Nat), (withRetryGo fn bd sigs attempt fuel).attempts ≤ fuel + 1 := by
  intro fuel
  induction fuel with
  | zero =>
    intro a
    rw [withRetryGo_eq]
    cases h : fn a <;> simp
  | succ n ih =>
    intro a
    rw [withRetryGo_eq]
    cases h : fn a with
    | ok v => simp
    | error e =>
      cases hr : shouldRetryB sigs e with
      | true =>
        simp only [hr, if_true]
        exact Nat.succ_le_succ (ih (a + 1))
      | false => simp [hr]

/-- If every attempt in the window fails and every non-final failure is
retryable, the loop uses all `fuel + 1` attempts, waits the exponential
backoff before each retry, and propagates the final failure. -/
theorem withRetryGo_all_fail {α : Type} (fn : Nat → Except String α) (bd : Nat)
    (sigs : Option (List String)) :
    ∀ (fuel attempt : Nat),
      (∀ i, i ≤ fuel → ∃ e, fn (attempt + i) = .error e) →
      (∀ i e, i < fuel → fn (attempt + i) = .error e → shouldRetryB sigs e = true) →
      ∃ e, fn (attempt + fuel) = .error e ∧
        withRetryGo fn bd sigs attempt fuel =
          ⟨.error e, fuel + 1, (List.range fuel).map (fun i => bd * 2 ^ (attempt + i))⟩ := by
  intro fuel
  induction fuel with
  | zero =>
    intro a hf _hr
    obtain ⟨e, he⟩ := hf 0 (Nat.le_refl 0)
    rw [Nat.add_zero] at he
    refine ⟨e, by simpa using he, ?_⟩
    rw [withRetryGo_eq, he]
    simp
  | succ n ih =>
    intro a hf hr
    obtain ⟨e0, he0⟩ := hf 0 (Nat.zero_le _)
    rw [Nat.add_zero] at he0
    have hr0 : shouldRetryB sigs e0 = true :=
      hr 0 e0 (Nat.succ_pos n) (by simpa using he0)
    obtain ⟨e, he, heq⟩ := ih (a + 1)
      (fun i hi => by
        obtain ⟨e', h'⟩ := hf (i + 1) (Nat.succ_le_succ hi)
        exact ⟨e', by rw [show a + 1 + i = a + (i + 1) by omega]; exact h'⟩)
      (fun i e' hi he' =>
        hr (i + 1) e' (Nat.succ_lt_succ hi)
          (by rw [show a + (i + 1) = a + 1 + i by omega]; exact he'))
    refine ⟨e, ?_, ?_⟩
    · rw [show a + (n + 1) = a + 1 + n by omega]; exact he
    · rw [withRetryGo_eq, he0]
      simp only [hr0, if_true]
      rw [heq, RetryTrace.mk.injEq]
      exact ⟨rfl, rfl, range_delay_cons bd a n⟩

/-- A non-retryable failure before the final attempt stops the loop
immediately: the failure propagates after `k + 1` attempts with only the
first `k` backoff delays. -/
theorem withRetryGo_nonretryable {α : Type} (fn : Nat → Except String α) (bd : Nat)
    (sigs : Option (List String)) :
    ∀ (k fuel attempt : Nat) (e : String), k < fuel →
      (∀ i, i < k → ∃ e', fn (attempt + i) = .error e' ∧ shouldRetryB sigs e' = true) →
      fn (attempt + k) = .error e → shouldRetryB sigs e = false →
      withRetryGo fn bd sigs attempt fuel =
        ⟨.error e, k + 1, (List.range k).map (fun i => bd * 2 ^ (attempt + i))⟩ := by
  intro k
  induction k with
  | zero =>
    intro fuel a e hk _hp he hnr
    rw [Nat.add_zero] at he
    cases fuel with
    | zero => omega
    | succ m =>
      rw [withRetryGo_eq, he]
      simp [hnr]
  | succ n ih =>
    intro fuel a e hk hp he hnr
    obtain ⟨e0, he0, hr0⟩ := hp 0 (Nat.succ_pos n)
    rw [Nat.add_zero] at he0
    cases fuel with
    | zero => omega
    | succ m =>
      have h' := ih m (a + 1) e (by omega)
        (fun i hi => by
          obtain ⟨e', h1, h2⟩ := hp (i + 1) (by omega)
          exact ⟨e', by rw [show a + 1 + i = a + (i + 1) by omega]; exact h1, h2⟩)
        (by rw [show a + 1 + n = a + (n + 1) by omega]; exact he) hnr
      rw [withRetryGo_eq, he0]
      simp only [hr0, if_true]
      rw [h', RetryTrace.mk.injEq]
      exact ⟨rfl, rfl, range_delay_cons bd a n⟩

/-- The inner loop of `llmsTxtToPageLinks` appends the per-link resolution
results to its accumulator. -/
theorem pageLinksFromLinks_eq (resolve : String → Option URLParts) (bh : String) :
    ∀ (links : List LlmsTxtLink) (acc : List PageLink),
      pageLinksFromLinks resolve bh acc links =
        acc ++ links.filterMap (resolveLink resolve bh) := by
  intro links
  induction links with
  | nil => intro acc; simp [pageLinksFromLinks]
  | cons l t ih =>
    intro acc
    cases hu : resolve l.url with
    | none => simp [pageLinksFromLinks, hu, resolveLink, ih]
    | some u =>
      by_cases hh : u.hostname = bh
      · simp [pageLinksFromLinks, hu, resolveLink, hh, ih]
      · simp [pageLinksFromLinks, hu, resolveLink, hh, ih]

/-- The outer loop of `llmsTxtToPageLinks` flattens the non-skipped
sections. -/
theorem pageLinksFromSections_eq (resolve : String → Option URLParts) (bh : String)
    (io : Bool) :
    ∀ (sections : List LlmsTxtSection) (acc : List PageLink),
      pageLinksFromSections resolve bh io acc sections =
        acc ++ (sections.filter (fun s => !(s.isOptional && !io))).flatMap
          (fun s => s.links.filterMap (resolveLink resolve bh)) := by
  intro sections
  induction sections with
  | nil => intro acc; simp [pageLinksFromSections]
  | cons s t ih =>
    intro acc
    cases ho : s.isOptional <;> cases io <;>
      simp [pageLinksFromSections, ho, ih, pageLinksFromLinks_eq]

/-- `runTrace` distributes over a leading event. -/
theorem runTrace_cons (st : ProgressStats) (ev : TrackerEvent) (t : List TrackerEvent) :
    runTrace st (ev :: t) = runTrace (stepStats st ev) t := rfl

/-- A transition never changes `total`. -/
theorem stepStats_total (st : ProgressStats) (ev : TrackerEvent) :
    (stepStats st ev).total = st.total := by cases ev <;> rfl

/-- A transition bumps `completed` exactly on terminal events. -/
theorem stepStats_completed (st : ProgressStats) (ev : TrackerEvent) :
    (stepStats st ev).completed = st.completed + (if isTerminalEv ev then 1 else 0) := by
  cases ev <;> simp [stepStats, isTerminalEv]

/-- A transition bumps `success` exactly on `success` events. -/
theorem stepStats_success (st : ProgressStats) (ev : TrackerEvent) :
    (stepStats st ev).success = st.success + (if isSuccessEv ev then 1 else 0) := by
  cases ev <;> simp [stepStats, isSuccessEv]

/-- A transition bumps `failed` exactly on `fail` events. -/
theorem stepStats_failed (st : ProgressStats) (ev : TrackerEvent) :
    (stepStats st ev).failed = st.failed + (if isFailEv ev then 1 else 0) := by
  cases ev <;> simp [stepStats, isFailEv]

/-- A transition bumps `skipped` exactly on `skip` events. -/
theorem stepStats_skipped (st : ProgressStats) (ev : TrackerEvent) :
    (stepStats st ev).skipped = st.skipped + (if isSkipEv ev then 1 else 0) := by
  cases ev <;> simp [stepStats, isSkipEv]

/-- A transition moves `inProgress` up on `start` and down on terminals. -/
theorem stepStats_inProgress (st : ProgressStats) (ev : TrackerEvent) :
    (stepStats st ev).inProgress =
      st.inProgress + (if isStartEv ev then 1 else 0) - (if isTerminalEv ev then 1 else 0) := by
  cases ev <;> simp [stepStats, isStartEv, isTerminalEv]

/-- A transition appends to `errors` exactly the `fail` entry. -/
theorem stepStats_errors (st : ProgressStats) (ev : TrackerEvent) :
    (stepStats st ev).errors = st.errors ++ (errOfEv ev).toList := by
  cases ev <;> simp [stepStats, errOfEv]

/-- Final stats of a trace, in terms of the trace's event counts. -/
theorem runTrace_spec : ∀ (tr : List TrackerEvent) (st : ProgressStats),
    (runTrace st tr).total = st.total ∧
    (runTrace st tr).completed = st.completed + tr.countP isTerminalEv ∧
    (runTrace st tr).success = st.success + tr.countP isSuccessEv ∧
    (runTrace st tr).failed = st.failed + tr.countP isFailEv ∧
    (runTrace st tr).skipped = st.skipped + tr.countP isSkipEv ∧
    (runTrace st tr).inProgress =
      st.inProgress + (tr.countP isStartEv : Int) - (tr.countP isTerminalEv : Int) ∧
    (runTrace st tr).errors = st.errors ++ tr.filterMap errOfEv := by
  intro tr
  induction tr with
  | nil => intro st; simp [runTrace]
  | cons ev t ih =>
    intro st
    obtain ⟨h1, h2, h3, h4, h5, h6, h7⟩ := ih (stepStats st ev)
    refine ⟨?_, ?_, ?_, ?_, ?_, ?_, ?_⟩
    · rw [runTrace_cons, h1, stepStats_total]
    · rw [runTrace_cons, h2, stepStats_completed, List.countP_cons]
      cases hb : isTerminalEv ev <;> (simp [hb]; try omega)
    · rw [runTrace_cons, h3, stepStats_success, List.countP_cons]
      cases hb : isSuccessEv ev <;> (simp [hb]; try omega)
    · rw [runTrace_cons, h4, stepStats_failed, List.countP_cons]
      cases hb : isFailEv ev <;> (simp [hb]; try omega)
    · rw [runTrace_cons, h5, stepStats_skipped, List.countP_cons]
      cases hb : isSkipEv ev <;> (simp [hb]; try omega)
    · rw [runTrace_cons, h6, stepStats_inProgress, List.countP_cons, List.countP_cons]
      cases hs : isStartEv ev <;> cases hb : isTerminalEv ev <;>
        (simp [hs, hb]; try omega)
    · rw [runTrace_cons, h7, stepStats_errors, List.filterMap_cons]
      cases hev : errOfEv ev <;> simp [hev]

/-- Every terminal event is exactly one of success, fail, skip. -/
theorem countP_terminal_split : ∀ tr : List TrackerEvent,
    tr.countP isTerminalEv =
      tr.countP isSuccessEv + tr.countP isFailEv + tr.countP isSkipEv := by
  intro tr
  induction tr with
  | nil => rfl
  | cons ev t ih =>
    cases ev <;>
      simp [List.countP_cons, isTerminalEv, isSuccessEv, isFailEv, isSkipEv, ih] <;>
      omega

/-- One error entry per `fail` event. -/
theorem length_filterMap_errOfEv : ∀ tr : List TrackerEvent,
    (tr.filterMap errOfEv).length = tr.countP isFailEv := by
  intro tr
  induction tr with
  | nil => rfl
  | cons ev t ih =>
    cases ev <;> simp [List.filterMap_cons, List.countP_cons, errOfEv, isFailEv, ih]

/-- A batch's transition sequence decomposes at its first page. -/
theorem batchEvents_cons (p : String × PageOutcome) (t : List (String × PageOutcome)) :
    batchEvents (p :: t) = pageEvents p.1 p.2 ++ batchEvents t := by
  simp [batchEvents]

/-- Event counts of a batch's transition sequence, per page. -/
theorem batchEvents_counts : ∀ pages : List (String × PageOutcome),
    (batchEvents pages).countP isStartEv = pages.length ∧
    (batchEvents pages).countP isTerminalEv = pages.length ∧
    (batchEvents pages).countP isSuccessEv = pages.countP pageOk ∧
    (batchEvents pages).filterMap errOfEv = pages.filterMap pageError? := by
  intro pages
  induction pages with
  | nil => simp [batchEvents]
  | cons p t ih =>
    obtain ⟨i1, i2, i3, i4⟩ := ih
    obtain ⟨url, outcome⟩ := p
    rw [batchEvents_cons]
    cases outcome <;>
      simp [pageEvents, List.countP_append, List.countP_cons, List.filterMap_append,
        List.filterMap_cons, isStartEv, isTerminalEv, isSuccessEv, errOfEv, pageOk,
        pageError?, i1, i2, i3, i4, List.countP_cons]

/-- The `## ` branch of the loop: the open section is pushed, a fresh
section opens, and the document title is untouched. -/
theorem processLine_h2_spec (st : ParseState) (l : String) (hc : classifyLine l = .h2) :
    (processLine st l).sections = st.sections ++
      (match st.currentSection with | some sec => [sec] | none => []) ∧
    (processLine st l).currentSection = some (headingSection l) ∧
    (processLine st l).title = st.title := by
  simp only [processLine, hc]
  cases hif : (st.inDetails && decide (0 < st.detailsLines.length)) with
  | false => cases hcur : st.currentSection <;> simp [hif, hcur, headingSection]
  | true => cases hcur : st.currentSection <;> simp [hif, hcur, headingSection]

/-- Loop/spec correspondence for the section structure: running the loop
from any state and finalizing appends exactly the pending sections of the
remaining lines. -/
theorem parse_sections_invariant : ∀ (lines : List String) (st : ParseState),
    (finalizeParse (lines.foldl processLine st)).sections =
      st.sections ++ pendingSections st.currentSection lines := by
  intro lines
  induction lines with
  | nil =>
    intro st
    cases hcur : st.currentSection with
    | none => simp [finalizeParse, hcur, pendingSections, sectionsSpec]
    | some sec => simp [finalizeParse, hcur, pendingSections, sectionsSpec]
  | cons l ls ih =>
    intro st
    rw [List.foldl_cons, ih (processLine st l)]
    cases hc : classifyLine l with
    | h2 =>
      obtain ⟨hsec, hcur2, _⟩ := processLine_h2_spec st l hc
      rw [hsec, hcur2]
      cases hcur : st.currentSection with
      | none =>
        simp [pendingSections, sectionsSpec, isSectionHeading, hc, headingSection]
      | some sec =>
        simp [pendingSections, sectionsSpec, isSectionHeading, hc, headingSection,
          List.takeWhile_cons, List.dropWhile_cons]
    | listItem =>
      cases hcur : st.currentSection with
      | none =>
        simp [processLine, hc, hcur, pendingSections, sectionsSpec, isSectionHeading]
      | some sec =>
        cases hpl : parseLink (trimS (dropS (trimS l) 1)) with
        | none =>
          simp [processLine, hc, hcur, hpl, pendingSections, isSectionHeading,
            lineLink, List.takeWhile_cons, List.dropWhile_cons]
        | some link =>
          simp [processLine, hc, hcur, hpl, pendingSections, isSectionHeading,
            lineLink, List.takeWhile_cons, List.dropWhile_cons]
    | empty =>
      cases hcur : st.currentSection <;>
        simp [processLine, hc, hcur, pendingSections, sectionsSpec, isSectionHeading,
          lineLink, List.takeWhile_cons, List.dropWhile_cons]
    | blank =>
      cases hid : st.inDetails <;> cases hcur : st.currentSection <;>
        simp [processLine, hc, hcur, hid, pendingSections, sectionsSpec, isSectionHeading,
          lineLink, List.takeWhile_cons, List.dropWhile_cons]
    | h1 =>
      cases hcur : st.currentSection <;>
        simp [processLine, hc, hcur, pendingSections, sectionsSpec, isSectionHeading,
          lineLink, List.takeWhile_cons, List.dropWhile_cons]
    | quote =>
      cases hcur : st.currentSection <;>
        simp [processLine, hc, hcur, pendingSections, sectionsSpec, isSectionHeading,
          lineLink, List.takeWhile_cons, List.dropWhile_cons]
    | other =>
      cases hid : st.inDetails <;> cases hcur : st.currentSection <;>
        simp [processLine, hc, hcur, hid, pendingSections, sectionsSpec, isSectionHeading,
          lineLink, List.takeWhile_cons, List.dropWhile_cons]

/-- `getD` after `getLast?` peels a cons by replacing the default. -/
theorem getLast_getD_cons (a : String) (l : List String) (d : String) :
    ((a :: l).getLast?).getD d = (l.getLast?).getD a := by
  cases l <;> simp [List.getLast?]

/-- The loop's document title is the last `# ` line of the remaining input,
defaulting to the incoming state's title. -/
theorem parse_title_invariant : ∀ (lines : List String) (st : ParseState),
    (lines.foldl processLine st).title =
      ((lines.filterMap h1Text).getLast?).getD st.title := by
  intro lines
  induction lines with
  | nil => intro st; simp
  | cons l ls ih =>
    intro st
    rw [List.foldl_cons, ih (processLine st l)]
    cases hc : classifyLine l with
    | h1 =>
      simp [processLine, hc, h1Text, List.filterMap_cons, getLast_getD_cons]
    | h2 =>
      have ht := (processLine_h2_spec st l hc).2.2
      simp [ht, h1Text, hc, List.filterMap_cons]
    | listItem =>
      cases hcur : st.currentSection with
      | none => simp [processLine, hc, hcur, h1Text]
      | some sec =>
        cases hpl : parseLink (trimS (dropS (trimS l) 1)) <;>
          simp [processLine, hc, hcur, hpl, h1Text]
    | empty => simp [processLine, hc, h1Text]
    | blank => cases hid : st.inDetails <;> simp [processLine, hc, hid, h1Text]
    | quote => simp [processLine, hc, h1Text]
    | other => cases hid : st.inDetails <;> simp [processLine, hc, hid, h1Text]

/-- The epilogue never changes the document title. -/
theorem finalizeParse_title (st : ParseState) : (finalizeParse st).title = st.title := by
  unfold finalizeParse
  cases hcur : st.currentSection <;> simp [hcur]

/-! # Claim theorems -/

/-- C10: for every input string, `sanitizeFilename` (a total deterministic
Lean function) returns a string whose every character is a lowercase ASCII
letter, an ASCII digit, or an underscore — in particular no path
separators, dots, or spaces. -/
theorem C10_sanitizeFilename_alphabet (s : String) :
    ((sanitizeFilename s).toList.all goodFilenameChar) = true := by
  rw [List.all_eq_true]
  intro c hc
  have hc' : c ∈ (collapseSeps false
      ((s.toList.filter (fun c => !(c = '>'))).filter keepChar)).map toLowerAscii := by
    simpa [sanitizeFilename] using hc
  obtain ⟨d, hd, rfl⟩ := List.mem_map.mp hc'
  rcases mem_collapseSeps false _ d hd with rfl | ⟨hm, hs⟩
  · decide
  · have hk : keepChar d = true := (List.mem_filter.mp hm).2
    have halnum : isAsciiAlnum d = true := by
      unfold keepChar at hk
      rw [Bool.or_eq_true] at hk
      rcases hk with h | h
      · exact h
      · rw [h] at hs; cases hs
    exact good_of_bounds (Or.imp id Or.inl (toLowerAscii_bounds halnum))

/-- C1: the native-Markdown candidate list is produced deterministically in
the stated order: with a file extension on the slash-stripped path, first
the extension replaced by `.md`, then `.md` appended after the extension;
with no extension and a trailing slash on the original URL,
`<path>index.md` then `<path-without-slash>.md`; with no extension and no
trailing slash, `<path-without-slash>.md` then `<path-without-slash>/index.md`
(the `/index.md` candidate only in that last case). -/
theorem C1_markdownCandidates (origin pathname : String) (slash : Bool) :
    (∀ stem ext, extSplit (stripTrailingSlash pathname) = some (stem, ext) →
      generateMarkdownUrls origin pathname slash =
        [origin ++ stem ++ ".md", origin ++ stripTrailingSlash pathname ++ ".md"]) ∧
    (extSplit (stripTrailingSlash pathname) = none → slash = true →
      generateMarkdownUrls origin pathname slash =
        [origin ++ pathname ++ "index.md",
         origin ++ stripTrailingSlash pathname ++ ".md"]) ∧
    (extSplit (stripTrailingSlash pathname) = none → slash = false →
      generateMarkdownUrls origin pathname slash =
        [origin ++ stripTrailingSlash pathname ++ ".md",
         origin ++ stripTrailingSlash pathname ++ "/index.md"]) := by
  refine ⟨?_, ?_, ?_⟩
  · intro stem ext h
    simp [generateMarkdownUrls, h]
  · intro h hs
    subst hs
    simp [generateMarkdownUrls, h]
  · intro h hs
    subst hs
    simp [generateMarkdownUrls, h]

/-- Witness for C1 at the spec's §8 examples: trailing slash, no trailing
slash, and an explicit `.html` extension. -/
theorem C1_markdownCandidates_witness :
    generateMarkdownUrls "https://x.test" "/docs/guide/" true =
      ["https://x.test/docs/guide/index.md", "https://x.test/docs/guide.md"] ∧
    generateMarkdownUrls "https://x.test" "/docs/guide" false =
      ["https://x.test/docs/guide.md", "https://x.test/docs/guide/index.md"] ∧
    generateMarkdownUrls "https://x.test" "/page.html" false =
      ["https://x.test/page.md", "https://x.test/page.html.md"] := by
  refine ⟨?_, ?_, ?_⟩
  · exact ((C1_markdownCandidates "https://x.test" "/docs/guide/" true).2.1
      (by decide) rfl).trans (by decide)
  · exact ((C1_markdownCandidates "https://x.test" "/docs/guide" false).2.2
      (by decide) rfl).trans (by decide)
  · exact ((C1_markdownCandidates "https://x.test" "/page.html" false).1
      "/page" "html" (by decide)).trans (by decide)

/-- C2: `withRetry` performs at most `maxRetries + 1` attempts; when every
attempt fails (non-final failures retryable), exactly `maxRetries + 1`
attempts occur, the i-th inter-attempt delay is `baseDelay * 2 ^ i`, and
the last failure propagates; when signatures are supplied and a failure's
message matches none of them before the final attempt, it propagates
immediately — a non-retryable failure on the first attempt yields exactly
one attempt (`k = 0`). -/
theorem C2_withRetry :
    (∀ (α : Type) (fn : Nat → Except String α) (mr bd : Nat)
        (sigs : Option (List String)),
      (withRetry fn mr bd sigs).attempts ≤ mr + 1) ∧
    (∀ (α : Type) (fn : Nat → Except String α) (mr bd : Nat)
        (sigs : Option (List String)),
      (∀ i, i ≤ mr → ∃ e, fn i = .error e) →
      (∀ i e, i < mr → fn i = .error e → shouldRetryB sigs e = true) →
      ∃ e, fn mr = .error e ∧
        withRetry fn mr bd sigs =
          ⟨.error e, mr + 1, (List.range mr).map (fun i => bd * 2 ^ i)⟩) ∧
    (∀ (α : Type) (fn : Nat → Except String α) (mr bd : Nat) (sigs : List String)
        (k : Nat) (e : String), k < mr →
      (∀ i, i < k → ∃ e', fn i = .error e' ∧ isRetryableError sigs e' = true) →
      fn k = .error e → isRetryableError sigs e = false →
      withRetry fn mr bd (some sigs) =
        ⟨.error e, k + 1, (List.range k).map (fun i => bd * 2 ^ i)⟩) := by
  refine ⟨?_, ?_, ?_⟩
  · intro α fn mr bd sigs
    exact withRetryGo_attempts_le fn bd sigs mr 0
  · intro α fn mr bd sigs hf hr
    obtain ⟨e, he, heq⟩ := withRetryGo_all_fail fn bd sigs mr 0
      (fun i hi => by simpa using hf i hi)
      (fun i e hi h => hr i e hi (by simpa using h))
    refine ⟨e, by simpa using he, ?_⟩
    rw [withRetry, heq]
    simp
  · intro α fn mr bd sigs k e hk hp he hnr
    have h := withRetryGo_nonretryable fn bd (some sigs) k mr 0 e hk
      (fun i hi => by simpa [shouldRetryB] using hp i hi)
      (by simpa using he) (by simpa [shouldRetryB] using hnr)
    rw [withRetry, h]
    simp

/-- Witness for C2: an always-failing retryable operation with
`maxRetries = 3`, `baseDelay = 100` performs 4 attempts with delays
100/200/400 ms; an `HTTP 404` failure (not in the retryable list) on the
first attempt yields exactly one attempt. -/
theorem C2_withRetry_witness :
    (withRetry (fun _ => (Except.error "timeout" : Except String Unit)) 3 100
        (some RETRYABLE_HTTP_ERRORS)).attempts = 4 ∧
    (withRetry (fun _ => (Except.error "timeout" : Except String Unit)) 3 100
        (some RETRYABLE_HTTP_ERRORS)).delays = [100, 200, 400] ∧
    (withRetry (fun _ => (Except.error "HTTP 404: Not Found" : Except String Unit)) 3 100
        (some RETRYABLE_HTTP_ERRORS)).attempts = 1 := by
  obtain ⟨e, he, heq⟩ := C2_withRetry.2.1 Unit (fun _ => .error "timeout") 3 100
    (some RETRYABLE_HTTP_ERRORS)
    (fun i _ => ⟨"timeout", rfl⟩)
    (fun i e' _ h => by
      cases h
      decide)
  have h3 := C2_withRetry.2.2 Unit (fun _ => .error "HTTP 404: Not Found") 3 100
    RETRYABLE_HTTP_ERRORS 0 "HTTP 404: Not Found" (by omega)
    (fun i hi => absurd hi (by omega)) rfl (by decide)
  refine ⟨by rw [heq], (congrArg RetryTrace.delays heq).trans
    (by decide : (List.range 3).map (fun i => 100 * 2 ^ i) = [100, 200, 400]), by rw [h3]⟩

/-- C3: `llmsTxtToPageLinks` yields exactly the links of the non-skipped
sections (a section is skipped iff it is optional and `includeOptional` is
false), in order; each emitted link carries the resolved absolute `href`;
links whose resolution fails or whose hostname differs from the origin's
are silently dropped; `isFullContent` holds iff the resolved path ends in
`.txt` — stated as equality with the declarative `llmsTxtToPageLinksSpec`,
for every resolver. -/
theorem C3_fromManifest (resolve : String → Option URLParts) (llmsTxt : LlmsTxtContent)
    (baseHostname : String) (includeOptional : Bool) :
    llmsTxtToPageLinks resolve llmsTxt baseHostname includeOptional =
      llmsTxtToPageLinksSpec resolve llmsTxt baseHostname includeOptional := by
  unfold llmsTxtToPageLinks llmsTxtToPageLinksSpec
  rw [pageLinksFromSections_eq]
  simp

/-- C9: for every transition trace, the tracker satisfies
`completed = success + failed + skipped`,
`inProgress = #start − completed` (as integers), `errors.length = failed`,
and `total` is unchanged from construction; and the final aggregate counts
are invariant under permuting the trace (order of page completions). -/
theorem C9_tracker_invariant (total : Nat) (tr tr' : List TrackerEvent) :
    (runTrace (initStats total) tr).total = total ∧
    (runTrace (initStats total) tr).completed =
      (runTrace (initStats total) tr).success + (runTrace (initStats total) tr).failed +
      (runTrace (initStats total) tr).skipped ∧
    (runTrace (initStats total) tr).inProgress =
      (tr.countP isStartEv : Int) - ((runTrace (initStats total) tr).completed : Int) ∧
    (runTrace (initStats total) tr).errors.length = (runTrace (initStats total) tr).failed ∧
    (List.Perm tr tr' →
      (runTrace (initStats total) tr').completed = (runTrace (initStats total) tr).completed ∧
      (runTrace (initStats total) tr').success = (runTrace (initStats total) tr).success ∧
      (runTrace (initStats total) tr').failed = (runTrace (initStats total) tr).failed ∧
      (runTrace (initStats total) tr').skipped = (runTrace (initStats total) tr).skipped ∧
      (runTrace (initStats total) tr').inProgress = (runTrace (initStats total) tr).inProgress ∧
      (runTrace (initStats total) tr').errors.length =
        (runTrace (initStats total) tr).errors.length) := by
  obtain ⟨h1, h2, h3, h4, h5, h6, h7⟩ := runTrace_spec tr (initStats total)
  refine ⟨h1, ?_, ?_, ?_, ?_⟩
  · rw [h2, h3, h4, h5, countP_terminal_split tr]
    simp [initStats]
  · rw [h6, h2]
    simp [initStats]
  · rw [h7, h4]
    simpa [initStats] using length_filterMap_errOfEv tr
  · intro hp
    obtain ⟨g1, g2, g3, g4, g5, g6, g7⟩ := runTrace_spec tr' (initStats total)
    refine ⟨?_, ?_, ?_, ?_, ?_, ?_⟩
    · rw [g2, h2, hp.countP_eq]
    · rw [g3, h3, hp.countP_eq]
    · rw [g4, h4, hp.countP_eq]
    · rw [g5, h5, hp.countP_eq]
    · rw [g6, h6, hp.countP_eq isStartEv, hp.countP_eq isTerminalEv]
    · rw [g7, h7]
      simpa [initStats] using (hp.filterMap errOfEv).length_eq.symm

/-- Witness for C9: a two-page trace (one success, one failure) and a
permutation of it in which the completions interleave differently. -/
theorem C9_tracker_invariant_witness :
    (runTrace (initStats 2)
        [.start, .start, .fail "u" "e", .success]).completed = 2 ∧
    (runTrace (initStats 2)
        [.start, .success, .start, .fail "u" "e"]).completed =
      (runTrace (initStats 2) [.start, .start, .fail "u" "e", .success]).completed ∧
    (runTrace (initStats 2)
        [.start, .success, .start, .fail "u" "e"]).errors.length =
      (runTrace (initStats 2) [.start, .start, .fail "u" "e", .success]).errors.length := by
  have h := C9_tracker_invariant 2 [.start, .start, .fail "u" "e", .success]
    [.start, .success, .start, .fail "u" "e"]
  have hp := h.2.2.2.2 (by decide)
  exact ⟨by decide, hp.1, hp.2.2.2.2.2⟩

/-- C4: for any batch of page outcomes, under any completion interleaving
(any permutation of the submitted pages' transition sequences), the batch
runs to completion: `completed = total = number of pages`, each failing
page contributes exactly one `(url, message)` error entry, and sibling
pages' results are unaffected (`success` equals the number of succeeding
pages). -/
theorem C4_batch_isolation (pages : List (String × PageOutcome)) (tr : List TrackerEvent)
    (hperm : List.Perm tr (batchEvents pages)) :
    (runTrace (initStats pages.length) tr).total = pages.length ∧
    (runTrace (initStats pages.length) tr).completed = pages.length ∧
    (runTrace (initStats pages.length) tr).success = pages.countP pageOk ∧
    (runTrace (initStats pages.length) tr).failed = (pages.filterMap pageError?).length ∧
    (runTrace (initStats pages.length) tr).inProgress = 0 ∧
    List.Perm (runTrace (initStats pages.length) tr).errors (pages.filterMap pageError?) := by
  obtain ⟨h1, h2, h3, h4, h5, h6, h7⟩ := runTrace_spec tr (initStats pages.length)
  obtain ⟨b1, b2, b3, b4⟩ := batchEvents_counts pages
  have hfail : tr.countP isFailEv = (pages.filterMap pageError?).length := by
    rw [← length_filterMap_errOfEv tr, (hperm.filterMap errOfEv).length_eq, b4]
  refine ⟨h1, ?_, ?_, ?_, ?_, ?_⟩
  · rw [h2, hperm.countP_eq, b2]
    simp [initStats]
  · rw [h3, hperm.countP_eq, b3]
    simp [initStats]
  · rw [h4, hfail]
    simp [initStats]
  · rw [h6, hperm.countP_eq isStartEv, hperm.countP_eq isTerminalEv, b1, b2]
    simp [initStats]
  · rw [h7]
    simpa [initStats] using (hperm.filterMap errOfEv).trans (by rw [b4])

/-- C6: `parseLlmsTxt` yields exactly the sections of the input in source
order, each holding — in source order — the parsed links of its list lines;
a list line that does not match the `[title](url)` pattern is dropped
without affecting sibling lines; a section with zero valid links is
retained; and a list line before any section heading is dropped: all
captured by equality with the declarative `sectionsSpec`. -/
theorem C6_parse_sections (content : String) :
    (parseLlmsTxt content).sections = sectionsSpec (splitS content '\n') := by
  unfold parseLlmsTxt
  rw [parse_sections_invariant]
  simp [initParseState, pendingSections]

/-- C7, at the failing input: the parser drops a genuinely empty line from
an open details block (`if (!line) continue` fires before the
blank-line-preserving branch), so the claimed preserved blank line is
missing; a whitespace-only (non-empty) line on the same input is preserved
as the intended empty line, exposing the dead branch. -/
theorem C7_details_blank_lines :
    (parseLlmsTxt "> d\nA\n\nB\n## S").details = some "A\nB" ∧
    (parseLlmsTxt "> d\nA\n \nB\n## S").details = some "A\n\nB" := by decide

/-- C8 counterexample: with two `# ` lines the parser's title is the text
of the second (last) one, not the first. -/
theorem C8_title_counterexample :
    (parseLlmsTxt "# First\n# Second").title = "Second" ∧
    ¬((parseLlmsTxt "# First\n# Second").title = "First") := by decide

/-- C8 (amended): the document title is the text of the LAST `# ` line
(single-pass overwrite, last occurrence wins), empty when no such line
exists. -/
theorem C8_title_last_wins (content : String) :
    (parseLlmsTxt content).title =
      (((splitS content '\n').filterMap h1Text).getLast?).getD "" := by
  unfold parseLlmsTxt
  rw [finalizeParse_title, parse_title_invariant]
  rfl

/-- C5: when the manifest path did not commit (disabled, absent, or zero
links after filtering), a configured non-empty follow-selector whose
discovery yields zero links makes the run stop with the selector error: no
batch runs, no single-page fallback happens, and this holds before any page
resolution (the outcome carries no pages). -/
theorem C5_selector_error (useLlmsTxt : Bool) (fetched : Option LlmsTxtContent)
    (resolve : String → Option URLParts) (baseHostname : String)
    (includeOptional : Bool) (follow : String) (extracted : List PageLink)
    (dryRun : Bool) (pathname : String)
    (hllms : useLlmsTxt = false ∨ fetched = none ∨
      (∀ d, fetched = some d →
        llmsTxtToPageLinks resolve d baseHostname includeOptional = []))
    (hfollow1 : ¬(follow = "")) (hfollow2 : ¬(trimS follow = ""))
    (hzero : extracted = []) :
    scrapeDecision useLlmsTxt fetched resolve baseHostname includeOptional follow
      extracted dryRun pathname = .selectorError follow := by
  subst hzero
  unfold scrapeDecision
  rcases hllms with h | h | h
  · subst h
    simp [hfollow1, hfollow2]
  · subst h
    simp [hfollow1, hfollow2]
  · cases hf : fetched with
    | none => simp [hf, hfollow1, hfollow2]
    | some d =>
      simp [hf, h d hf, hfollow1, hfollow2]

/-- Witness for C5: manifest disabled pathway absent (no manifest fetched),
explicit selector `a.nav`, empty discovery result. -/
theorem C5_selector_error_witness :
    scrapeDecision true none (fun _ => none) "x.test" false "a.nav" [] false "/docs" =
      .selectorError "a.nav" :=
  C5_selector_error true none (fun _ => none) "x.test" false "a.nav" [] false "/docs"
    (Or.inr (Or.inl rfl)) (by decide) (by decide) rfl

/-- Witness for C4: the §8 scenario (five pages, page 3 failing) at the
submission-order interleaving. -/
theorem C4_batch_isolation_witness :
    (runTrace (initStats pages5.length) (batchEvents pages5)).completed = 5 ∧
    (runTrace (initStats pages5.length) (batchEvents pages5)).success = 4 ∧
    (runTrace (initStats pages5.length) (batchEvents pages5)).failed = 1 ∧
    List.Perm (runTrace (initStats pages5.length) (batchEvents pages5)).errors
      [("https://x.test/p3", "HTTP 500: Internal Server Error")] := by
  have h := C4_batch_isolation pages5 (batchEvents pages5) (List.Perm.refl _)
  refine ⟨h.2.1.trans (by decide), h.2.2.1.trans (by decide), h.2.2.2.1.trans (by decide), ?_⟩
  exact h.2.2.2.2.2.trans (by decide : List.Perm (pages5.filterMap pageError?)
    [("https://x.test/p3", "HTTP 500: Internal Server Error")])

end Markgrab
